import Mathlib

/-!
# Verification of `semver::Version` (Moditone/semver, src/version.hpp)

A shallow embedding of the single-header semantic-version class:
the `Version` value type, its four construction paths (default,
explicit fields, text parsing, structured-value parsing), serialization
to text and to a structured value, and the comparison operators.

Machine integers (`unsigned int`) are modelled as `Nat`, with the
`2 ^ 32` bound made explicit at the places the C++ code can observe it
(the `static_cast<unsigned int>` in the structured-value constructor,
and range checking during stream extraction).  C++ strings are modelled
as `String`, compared character-wise by code point.  Exceptions are
modelled with `Except`.
-/

namespace Semver

/-- The two error kinds the class can raise: `std::invalid_argument`
from the validating constructors, and `std::runtime_error` (a parse
error) from the text parser. -/
inductive SemverError where
  | invalidArgument (msg : String)
  | parseError (msg : String)
  deriving Repr, DecidableEq

/-- The `semver::Version` value type: `major`, `minor`, `patch`
(`unsigned int`, default 0) plus `prerelease` and `build` tag lists
(`std::vector<std::string>`, default empty). -/
structure Version where
  major : Nat := 0
  minor : Nat := 0
  patch : Nat := 0
  prerelease : List String := []
  build : List String := []
  deriving Repr, DecidableEq

/-- `Version()` — the default constructor: the `0.0.0` version. -/
def defaultVersion : Version := {}

/-- `Version(major, minor, patch, prerelease, build)` — the
explicit-fields constructor: stores the fields, then throws
`std::invalid_argument` if any prerelease element is empty, then if
any build element is empty. -/
def mkVersion (major minor patch : Nat) (prerelease : List String := [])
    (build : List String := []) : Except SemverError Version :=
  if prerelease.any (fun element => element.isEmpty) then
    .error (.invalidArgument "semver prerelease element may not be empty")
  else if build.any (fun element => element.isEmpty) then
    .error (.invalidArgument "semver build element may not be empty")
  else
    .ok { major := major, minor := minor, patch := patch,
          prerelease := prerelease, build := build }

/-! ## Comparison operators

`operator<` compares `major`, `minor`, `patch` numerically and then the
`prerelease` vectors with the `operator<` of `std::vector`, which is
`std::lexicographical_compare` over the character-wise (unsigned byte)
comparison of `std::string`.  `build` never takes part.  `operator==`
compares `major`, `minor`, `patch` and `prerelease` only.
-/

/-- `std::string::operator<`: lexicographic comparison of the character
sequences (a strict prefix is less). -/
def chLt : List Char → List Char → Bool
  | _, [] => false
  | [], _ :: _ => true
  | a :: as, b :: bs =>
    if a.toNat < b.toNat then true
    else if b.toNat < a.toNat then false
    else chLt as bs

/-- `std::vector<std::string>::operator<`:
`std::lexicographical_compare` with `std::string::operator<` on the
elements (a strict prefix is less). -/
def strsLt : List String → List String → Bool
  | _, [] => false
  | [], _ :: _ => true
  | a :: as, b :: bs =>
    if chLt a.data b.data then true
    else if chLt b.data a.data then false
    else strsLt as bs

/-- `operator<(const Version&, const Version&)` from src/version.hpp:
the chain of comparisons on `major`, `minor`, `patch`, `prerelease`,
falling through to `false`. -/
def verLt (lhs rhs : Version) : Bool :=
  if lhs.major < rhs.major then true
  else if lhs.major > rhs.major then false
  else if lhs.minor < rhs.minor then true
  else if lhs.minor > rhs.minor then false
  else if lhs.patch < rhs.patch then true
  else if lhs.patch > rhs.patch then false
  else if strsLt lhs.prerelease rhs.prerelease then true
  else if strsLt rhs.prerelease lhs.prerelease then false
  else false

/-- `operator==(const Version&, const Version&)`: field-wise equality of
`major`, `minor`, `patch` and `prerelease`; `build` is ignored. -/
def verEq (lhs rhs : Version) : Bool :=
  lhs.major == rhs.major && lhs.minor == rhs.minor &&
    lhs.patch == rhs.patch && lhs.prerelease == rhs.prerelease

/-- `operator!=`: negated equality. -/
def verNe (lhs rhs : Version) : Bool := !(verEq lhs rhs)

/-- `operator<=`: `(lhs == rhs) || (lhs < rhs)`. -/
def verLe (lhs rhs : Version) : Bool := verEq lhs rhs || verLt lhs rhs

/-- `operator>`: `!(lhs <= rhs)`. -/
def verGt (lhs rhs : Version) : Bool := !(verLe lhs rhs)

/-- `operator>=`: `!(lhs < rhs)`. -/
def verGe (lhs rhs : Version) : Bool := !(verLt lhs rhs)

/-! ## The structured (JSON-like) value model

Modelled from the spec: the external `json::Value` collaborator
(moditone/jsonata, not part of this repository) is, per the spec, "a
generic tree of null/bool/number/string/array/object nodes" to be
modelled "as a tagged-variant (enum over Null/Bool/Number/String/
Array/Object) with the same query surface"
(`isObject`/`isArray`/`isString`/`isUnsignedInteger`, key presence,
typed extraction, construction from scalars and arrays).  Objects are
keyed field lists queried by first match.
-/

/-- Modelled from the spec: the external structured-value node (the
`json::Value` tree of moditone/jsonata), a tagged variant with numbers
split so that the `isUnsignedInteger` query is expressible. -/
inductive JValue where
  | null
  | boolean (b : Bool)
  | unsignedInteger (n : Nat)
  | signedInteger (n : Int)
  | string (s : String)
  | array (elements : List JValue)
  | object (fields : List (String × JValue))

/-- `json.isObject()`. -/
def JValue.isObject : JValue → Bool
  | .object _ => true
  | _ => false

/-- `json.isArray()`. -/
def JValue.isArray : JValue → Bool
  | .array _ => true
  | _ => false

/-- `json.isString()`. -/
def JValue.isString : JValue → Bool
  | .string _ => true
  | _ => false

/-- `json.isUnsignedInteger()`. -/
def JValue.isUnsignedInteger : JValue → Bool
  | .unsignedInteger _ => true
  | _ => false

/-- `json.asUnsignedInteger()` (only ever called after the
`isUnsignedInteger` check succeeds). -/
def JValue.asUnsignedInteger : JValue → Nat
  | .unsignedInteger n => n
  | _ => 0

/-- `element.asString()` (only ever called after the `isString` check
succeeds). -/
def JValue.asString : JValue → String
  | .string s => s
  | _ => ""

/-- `json[key].asArray()` (only ever called after the `isArray` check
succeeds). -/
def JValue.asArray : JValue → List JValue
  | .array elements => elements
  | _ => []

/-- Key lookup inside an object node (first match). -/
def JValue.find : JValue → String → Option JValue
  | .object fields, key => (fields.find? (fun f => f.1 == key)).map (fun f => f.2)
  | _, _ => none

/-- `json.hasKey(key)`. -/
def JValue.hasKey (j : JValue) (key : String) : Bool := (j.find key).isSome

/-- `json[key]` on an object node. -/
def JValue.index (j : JValue) (key : String) : JValue := (j.find key).getD .null

/-! ## Construction from a structured value -/

/-- The element loop of the `Version(const json::Value&)` constructor
over a `prerelease`/`build` array: each element must be a string and
non-empty, and is appended in order.  The two error messages are those
of the corresponding C++ throw sites (quotation marks elided). -/
def readTags (notStringMsg emptyMsg : String) :
    List JValue → Except SemverError (List String)
  | [] => .ok []
  | element :: rest =>
    if !element.isString then
      .error (.invalidArgument notStringMsg)
    else if element.asString.isEmpty then
      .error (.invalidArgument emptyMsg)
    else
      match readTags notStringMsg emptyMsg rest with
      | .error e => .error e
      | .ok tags => .ok (element.asString :: tags)

/-- The optional-key block of the `Version(const json::Value&)`
constructor, shared by `prerelease` and `build`: an absent key leaves
the sequence empty, a present key must hold an array whose elements
pass `readTags`. -/
def readOptTags (json : JValue) (key notArrayMsg notStringMsg emptyMsg : String) :
    Except SemverError (List String) :=
  if json.hasKey key then
    if !(json.index key).isArray then
      .error (.invalidArgument notArrayMsg)
    else
      readTags notStringMsg emptyMsg (json.index key).asArray
  else
    .ok []

/-- The `prerelease` block of the structured-value constructor, with
its three error messages. -/
def optPrerelease (json : JValue) : Except SemverError (List String) :=
  readOptTags json "prerelease" "semver json prerelease is not an array"
    "semver json prerelease contains a non-string element"
    "semver json prerelease element may not be empty"

/-- The `build` block of the structured-value constructor, with its
three error messages. -/
def optBuild (json : JValue) : Except SemverError (List String) :=
  readOptTags json "build" "semver json build is not an array"
    "semver json build contains a non-string element"
    "semver json build element may not be empty"

/-- `Version(const json::Value& json)` — the structured-value
constructor: requires an object holding `major`, `minor`, `patch` as
unsigned integers (each narrowed by `static_cast<unsigned int>`,
hence the `% 2 ^ 32`), and optional `prerelease`/`build` keys holding
arrays of non-empty strings; throws `std::invalid_argument`
otherwise. -/
def fromJson (json : JValue) : Except SemverError Version :=
  if !json.isObject then
    .error (.invalidArgument "semver json is not an object")
  else if !(json.hasKey "major" && (json.index "major").isUnsignedInteger) then
    .error (.invalidArgument "semver json does not contain a major positive integer")
  else if !(json.hasKey "minor" && (json.index "minor").isUnsignedInteger) then
    .error (.invalidArgument "semver json does not contain a minor positive integer")
  else if !(json.hasKey "patch" && (json.index "patch").isUnsignedInteger) then
    .error (.invalidArgument "semver json does not contain a patch positive integer")
  else
    match optPrerelease json with
    | .error e => .error e
    | .ok prerelease =>
      match optBuild json with
      | .error e => .error e
      | .ok build =>
        .ok { major := (json.index "major").asUnsignedInteger % 2 ^ 32,
              minor := (json.index "minor").asUnsignedInteger % 2 ^ 32,
              patch := (json.index "patch").asUnsignedInteger % 2 ^ 32,
              prerelease := prerelease, build := build }

/-- `Version::toJson()`: an object with `major`, `minor`, `patch` as
unsigned-integer fields and, only when non-empty, `prerelease` and
`build` as string arrays. -/
def toJson (v : Version) : JValue :=
  .object
    ([("major", .unsignedInteger v.major),
      ("minor", .unsignedInteger v.minor),
      ("patch", .unsignedInteger v.patch)]
      ++ (if v.prerelease.isEmpty then []
          else [("prerelease", .array (v.prerelease.map JValue.string))])
      ++ (if v.build.isEmpty then []
          else [("build", .array (v.build.map JValue.string))]))

/-! ## Serialization to text -/

/-- The decimal digits of `n`, most significant first, with explicit
fuel so that the recursion is structural (any fuel above `n` gives the
same digits). -/
def natDigitsAux : Nat → Nat → List Char
  | 0, _ => []
  | fuel + 1, n =>
    if n < 10 then [Char.ofNat (48 + n)]
    else natDigitsAux fuel (n / 10) ++ [Char.ofNat (48 + n % 10)]

/-- The decimal digits of `n`, as `operator<<` on an unsigned integer
prints them. -/
def natDigits (n : Nat) : List Char := natDigitsAux (n + 1) n

/-- Decimal rendering of an unsigned integer as a string. -/
def natToStr (n : Nat) : String := ⟨natDigits n⟩

/-- The tag-joining loop of `Version::toString()`: every tag but the
last followed by a separating dot, then the last tag (only called on a
non-empty vector). -/
def joinTags : List String → String
  | [] => ""
  | [t] => t
  | t :: t₂ :: ts => t ++ "." ++ joinTags (t₂ :: ts)

/-- `Version::toString()`: `major.minor.patch`, then `-` and the
dot-joined prerelease tags when non-empty, then `+` and the dot-joined
build tags when non-empty. -/
def Version.toString (v : Version) : String :=
  natToStr v.major ++ "." ++ natToStr v.minor ++ "." ++ natToStr v.patch
    ++ (if v.prerelease.isEmpty then "" else "-" ++ joinTags v.prerelease)
    ++ (if v.build.isEmpty then "" else "+" ++ joinTags v.build)

/-! ## Parsing from text

`Version::parse` works on a `std::istringstream`.  The stream is
modelled as the remaining characters plus a fail flag: a failed
extraction sets the flag, and every later `get`/`peek` on a failed
stream yields end-of-file (-1).  Character codes are `Int` so that
end-of-file is representable, as in C++.
-/

/-- An input string stream: remaining characters and the fail state. -/
structure IStream where
  rem : List Char
  fail : Bool
  deriving Repr, DecidableEq

/-- `std::isspace` in the default locale (the whitespace skipped by
formatted extraction). -/
def isSpaceCh (c : Char) : Bool := c.toNat == 32 || (9 ≤ c.toNat && c.toNat ≤ 13)

/-- ASCII decimal digit. -/
def isDigitCh (c : Char) : Bool := 48 ≤ c.toNat && c.toNat ≤ 57

/-- `std::isalnum` in the default locale. -/
def isAlnumCh (c : Char) : Bool :=
  isDigitCh c || (65 ≤ c.toNat && c.toNat ≤ 90) || (97 ≤ c.toNat && c.toNat ≤ 122)

/-- The numeric value of a run of decimal digit characters. -/
def digitsToNat (ds : List Char) : Nat :=
  ds.foldl (fun a c => a * 10 + (c.toNat - 48)) 0

/-- A sign character accepted by formatted integer extraction. -/
def isSignCh (c : Char) : Bool := c == '+' || c == '-'

/-- `stream >> n` for `unsigned int n`, with C++11 `num_get`
semantics in the default (decimal, C-locale) configuration: skip
whitespace, accumulate an optional sign and the following digit run.
A field with no digits is a conversion failure: value 0, fail state
set.  Otherwise the field converts as by `strtoull` — a magnitude of
`2 ^ 64` or more clamps out of range, a `-` sign negates modulo
`2 ^ 64` — and the result is range-checked against `unsigned int`:
out of range stores the maximum and sets the fail state, in range
stores the value.  When the sentry fails at end of input the target
keeps its previous value, which is 0 at every use in
`Version::parse`. -/
def extractUInt (s : IStream) : Nat × IStream :=
  if s.fail then (0, s)
  else
    let afterWs := s.rem.dropWhile isSpaceCh
    let negative :=
      match afterWs with
      | c :: _ => c == '-'
      | [] => false
    let afterSign :=
      match afterWs with
      | c :: cs => if isSignCh c then cs else afterWs
      | [] => afterWs
    let ds := afterSign.takeWhile isDigitCh
    let rest := afterSign.dropWhile isDigitCh
    if ds.isEmpty then (0, ⟨afterSign, true⟩)
    else if digitsToNat ds ≥ 2 ^ 64 then (2 ^ 32 - 1, ⟨rest, true⟩)
    else
      let u64 := if negative then (2 ^ 64 - digitsToNat ds) % 2 ^ 64
                 else digitsToNat ds
      if u64 < 2 ^ 32 then (u64, ⟨rest, false⟩)
      else (2 ^ 32 - 1, ⟨rest, true⟩)

/-- `stream.get()`: the next character code, or -1 at end of input or
on a failed stream. -/
def getCh (s : IStream) : Int × IStream :=
  if s.fail then (-1, s)
  else
    match s.rem with
    | [] => (-1, ⟨[], true⟩)
    | c :: cs => ((c.toNat : Int), ⟨cs, false⟩)

/-- `stream.peek()`: the next character code without consuming it, or
-1 at end of input or on a failed stream. -/
def peekCh (s : IStream) : Int :=
  if s.fail then -1
  else
    match s.rem with
    | [] => -1
    | c :: _ => (c.toNat : Int)

/-- The prerelease scanning loop of `Version::parse`: an alphanumeric
character extends the current tag, a dot closes it and starts a new
(initially empty) tag, anything else — end of input included — stops
the loop.  The loop never touches a failed stream (it is entered only
after `peek` returned a character), so it is stated on the remaining
characters. -/
def scanPrerelease : List Char → List Char → List (List Char) × List Char
  | cur, [] => ([cur], [])
  | cur, c :: cs =>
    if isAlnumCh c then scanPrerelease (cur ++ [c]) cs
    else if c = '.' then
      let (tags, rest) := scanPrerelease [] cs
      (cur :: tags, rest)
    else ([cur], c :: cs)

/-- `Version::parse(std::istringstream&)`: extract `major`, require a
dot, extract `minor`, require a dot, extract `patch`; then, when the
next character is a dash, consume it and run the prerelease scanning
loop starting from one freshly created empty tag.  A missing dot
throws `std::runtime_error`; `build` is never populated from text. -/
def parseStream (s0 : IStream) : Except SemverError Version :=
  let (major, s1) := extractUInt s0
  let (c1, s2) := getCh s1
  if c1 ≠ (46 : Int) then
    .error (.parseError "unexpected character in version string")
  else
    let (minor, s3) := extractUInt s2
    let (c2, s4) := getCh s3
    if c2 ≠ (46 : Int) then
      .error (.parseError "unexpected character in version string")
    else
      let (patch, s5) := extractUInt s4
      if peekCh s5 = (45 : Int) then
        let (tags, _) := scanPrerelease [] s5.rem.tail
        .ok { major := major, minor := minor, patch := patch,
              prerelease := tags.map (fun cs => ⟨cs⟩), build := [] }
      else
        .ok { major := major, minor := minor, patch := patch,
              prerelease := [], build := [] }

/-- `Version(const std::string&)` / `Version(const char*)`: wrap the
text in a stream and parse. -/
def parseText (str : String) : Except SemverError Version :=
  parseStream ⟨str.data, false⟩

/-- Recognizer for an `std::invalid_argument` outcome. -/
def isInvalidArg (x : Except SemverError Version) : Bool :=
  match x with
  | .error (.invalidArgument _) => true
  | _ => false

/-- Recognizer for a parse-error (`std::runtime_error`) outcome. -/
def isParseErr (x : Except SemverError Version) : Bool :=
  match x with
  | .error (.parseError _) => true
  | _ => false

/-! ## Spec-side order

The spec describes the order as lexicographic over
`(major, minor, patch, prerelease)` in that priority, with the
prerelease sequences compared by "standard sequence comparison"
(element-wise string comparison, a strict prefix being less).  That
description is rendered here independently of the code, with
`List.Lex` as the standard sequence comparison.
-/

/-- Spec-side string order: lexicographic over the character codes. -/
def strLtP (a b : String) : Prop :=
  List.Lex (fun c d : Char => c.toNat < d.toNat) a.data b.data

/-- Spec-side version order: lexicographic over
`(major, minor, patch, prerelease)` in that priority, the prerelease
sequences compared by standard sequence comparison over `strLtP`. -/
def specLt (v w : Version) : Prop :=
  v.major < w.major ∨
    (v.major = w.major ∧
      (v.minor < w.minor ∨
        (v.minor = w.minor ∧
          (v.patch < w.patch ∨
            (v.patch = w.patch ∧ List.Lex strLtP v.prerelease w.prerelease)))))

/-! ## Order lemmas -/

theorem char_toNat_inj {a b : Char} (h : a.toNat = b.toNat) : a = b :=
  Char.ext (UInt32.toNat.inj h)

theorem chLt_nil_right (a : List Char) : chLt a [] = false := by
  cases a <;> rfl

theorem chLt_nil_cons (b : Char) (bs : List Char) : chLt [] (b :: bs) = true := rfl

theorem chLt_cons_cons (a b : Char) (as bs : List Char) :
    chLt (a :: as) (b :: bs) =
      if a.toNat < b.toNat then true
      else if b.toNat < a.toNat then false
      else chLt as bs := rfl

theorem chLt_irrefl (a : List Char) : chLt a a = false := by
  induction a with
  | nil => rfl
  | cons x xs ih => rw [chLt_cons_cons, if_neg (Nat.lt_irrefl _),
      if_neg (Nat.lt_irrefl _), ih]

theorem chLt_asymm : ∀ a b : List Char, chLt a b = true → chLt b a = false
  | a, [], h => by rw [chLt_nil_right] at h; cases h
  | [], _ :: _, _ => chLt_nil_right _
  | a :: as, b :: bs, h => by
    rw [chLt_cons_cons] at h ⊢
    rcases Nat.lt_trichotomy a.toNat b.toNat with hlt | heq | hgt
    · rw [if_neg (Nat.lt_asymm hlt), if_pos hlt]
    · rw [if_neg (heq ▸ Nat.lt_irrefl _), if_neg (heq ▸ Nat.lt_irrefl _)] at h ⊢
      exact chLt_asymm as bs h
    · rw [if_neg (Nat.lt_asymm hgt), if_pos hgt] at h
      cases h

theorem chLt_antisymm : ∀ a b : List Char,
    chLt a b = false → chLt b a = false → a = b
  | [], [], _, _ => rfl
  | [], b :: bs, h, _ => by rw [chLt_nil_cons] at h; cases h
  | _ :: _, [], _, h2 => by rw [chLt_nil_cons] at h2; cases h2
  | a :: as, b :: bs, h, h2 => by
    rw [chLt_cons_cons] at h h2
    rcases Nat.lt_trichotomy a.toNat b.toNat with hlt | heq | hgt
    · rw [if_pos hlt] at h; cases h
    · rw [if_neg (heq ▸ Nat.lt_irrefl _), if_neg (heq ▸ Nat.lt_irrefl _)] at h h2
      exact congrArg₂ List.cons (char_toNat_inj heq) (chLt_antisymm as bs h h2)
    · rw [if_pos hgt] at h2; cases h2

theorem chLt_iff_lex : ∀ a b : List Char,
    chLt a b = true ↔ List.Lex (fun c d : Char => c.toNat < d.toNat) a b
  | [], [] => ⟨(fun h => nomatch h), (fun h => nomatch h)⟩
  | [], b :: bs => ⟨(fun _ => List.Lex.nil), (fun _ => rfl)⟩
  | a :: as, [] =>
    ⟨(fun h => nomatch (chLt_nil_right (a :: as) ▸ h)), (fun h => nomatch h)⟩
  | a :: as, b :: bs => by
    rw [chLt_cons_cons]
    rcases Nat.lt_trichotomy a.toNat b.toNat with hlt | heq | hgt
    · rw [if_pos hlt]
      exact ⟨fun _ => List.Lex.rel hlt, fun _ => rfl⟩
    · have hab : a = b := char_toNat_inj heq
      subst hab
      rw [if_neg (Nat.lt_irrefl _), if_neg (Nat.lt_irrefl _)]
      constructor
      · exact fun h => List.Lex.cons ((chLt_iff_lex as bs).mp h)
      · intro h
        cases h with
        | cons h => exact (chLt_iff_lex as bs).mpr h
        | rel h => exact absurd h (Nat.lt_irrefl _)
    · have hne : a ≠ b := fun h => Nat.lt_irrefl _ (h ▸ hgt)
      rw [if_neg (Nat.lt_asymm hgt), if_pos hgt]
      constructor
      · intro h; cases h
      · intro h
        cases h with
        | cons h => exact absurd rfl hne
        | rel h => exact absurd h (Nat.lt_asymm hgt)

theorem strsLt_nil_right (a : List String) : strsLt a [] = false := by
  cases a <;> rfl

theorem strsLt_nil_cons (b : String) (bs : List String) :
    strsLt [] (b :: bs) = true := rfl

theorem strsLt_cons_cons (a b : String) (as bs : List String) :
    strsLt (a :: as) (b :: bs) =
      if chLt a.data b.data then true
      else if chLt b.data a.data then false
      else strsLt as bs := rfl

theorem strsLt_irrefl (a : List String) : strsLt a a = false := by
  induction a with
  | nil => rfl
  | cons x xs ih => rw [strsLt_cons_cons, chLt_irrefl, if_neg (by simp),
      if_neg (by simp), ih]

theorem strsLt_asymm : ∀ a b : List String, strsLt a b = true → strsLt b a = false
  | a, [], h => by rw [strsLt_nil_right] at h; cases h
  | [], _ :: _, _ => strsLt_nil_right _
  | a :: as, b :: bs, h => by
    rw [strsLt_cons_cons] at h ⊢
    by_cases hab : chLt a.data b.data = true
    · have hba := chLt_asymm _ _ hab
      simp [hab, hba]
    · simp only [Bool.not_eq_true] at hab
      by_cases hba : chLt b.data a.data = true
      · simp [hab, hba] at h
      · simp only [Bool.not_eq_true] at hba
        simp only [hab, hba, Bool.false_eq_true, if_false] at h ⊢
        exact strsLt_asymm as bs h

theorem strsLt_antisymm : ∀ a b : List String,
    strsLt a b = false → strsLt b a = false → a = b
  | [], [], _, _ => rfl
  | [], b :: bs, h, _ => by rw [strsLt_nil_cons] at h; cases h
  | _ :: _, [], _, h2 => by rw [strsLt_nil_cons] at h2; cases h2
  | a :: as, b :: bs, h, h2 => by
    rw [strsLt_cons_cons] at h h2
    by_cases hab : chLt a.data b.data = true
    · simp [hab] at h
    · simp only [Bool.not_eq_true] at hab
      by_cases hba : chLt b.data a.data = true
      · simp [hba] at h2
      · simp only [Bool.not_eq_true] at hba
        simp only [hab, hba, Bool.false_eq_true, if_false] at h h2
        exact congrArg₂ List.cons (String.ext (chLt_antisymm _ _ hab hba))
          (strsLt_antisymm as bs h h2)

theorem strsLt_iff_lex : ∀ a b : List String,
    strsLt a b = true ↔ List.Lex strLtP a b
  | [], [] => ⟨(fun h => nomatch h), (fun h => nomatch h)⟩
  | [], b :: bs => ⟨(fun _ => List.Lex.nil), (fun _ => rfl)⟩
  | a :: as, [] =>
    ⟨(fun h => nomatch (strsLt_nil_right (a :: as) ▸ h)), (fun h => nomatch h)⟩
  | a :: as, b :: bs => by
    rw [strsLt_cons_cons]
    by_cases hab : chLt a.data b.data = true
    · rw [if_pos (by rw [hab])]
      exact ⟨(fun _ => List.Lex.rel ((chLt_iff_lex _ _).mp hab)), (fun _ => rfl)⟩
    · simp only [Bool.not_eq_true] at hab
      by_cases hba : chLt b.data a.data = true
      · have hne : a ≠ b := by
          intro h; subst h; rw [chLt_irrefl] at hba; cases hba
        rw [if_neg (by rw [hab]; exact Bool.false_ne_true),
          if_pos (by rw [hba])]
        constructor
        · intro h; cases h
        · intro h
          cases h with
          | cons h => exact absurd rfl hne
          | rel h =>
            have h2 := (chLt_iff_lex a.data b.data).mpr h
            rw [hab] at h2; cases h2
      · simp only [Bool.not_eq_true] at hba
        have hab2 : a = b := String.ext (chLt_antisymm _ _ hab hba)
        subst hab2
        rw [if_neg (by rw [hab]; exact Bool.false_ne_true),
          if_neg (by rw [hba]; exact Bool.false_ne_true)]
        constructor
        · exact fun h => List.Lex.cons ((strsLt_iff_lex as bs).mp h)
        · intro h
          cases h with
          | cons h => exact (strsLt_iff_lex as bs).mpr h
          | rel h =>
            have h2 := (chLt_iff_lex a.data a.data).mpr h
            rw [chLt_irrefl] at h2; cases h2

theorem strsLt_trichot (p q : List String) :
    (strsLt p q = true ∧ strsLt q p = false ∧ p ≠ q) ∨
    (strsLt p q = false ∧ strsLt q p = false ∧ p = q) ∨
    (strsLt p q = false ∧ strsLt q p = true ∧ p ≠ q) := by
  cases hpq : strsLt p q with
  | true =>
    left
    refine ⟨rfl, strsLt_asymm _ _ hpq, ?_⟩
    intro he; subst he; rw [strsLt_irrefl] at hpq; cases hpq
  | false =>
    cases hqp : strsLt q p with
    | true =>
      right; right
      refine ⟨rfl, rfl, ?_⟩
      intro he; subst he; rw [strsLt_irrefl] at hqp; cases hqp
    | false =>
      right; left
      exact ⟨rfl, rfl, strsLt_antisymm _ _ hpq hqp⟩

theorem verEq_iff (v w : Version) :
    verEq v w = true ↔
      v.major = w.major ∧ v.minor = w.minor ∧ v.patch = w.patch ∧
        v.prerelease = w.prerelease := by
  simp [verEq, and_assoc]

theorem verLt_iff_specLt (v w : Version) : verLt v w = true ↔ specLt v w := by
  have hpq := strsLt_iff_lex v.prerelease w.prerelease
  simp only [verLt, specLt, ← hpq]
  split_ifs with h1 h2 h3 h4 h5 h6 h7 h8
  · exact iff_of_true rfl (Or.inl h1)
  · refine iff_of_false (by simp) ?_
    rintro (h | ⟨he, _⟩) <;> omega
  · exact iff_of_true rfl (Or.inr ⟨by omega, Or.inl h3⟩)
  · refine iff_of_false (by simp) ?_
    rintro (h | ⟨he, h | ⟨he2, _⟩⟩) <;> omega
  · exact iff_of_true rfl (Or.inr ⟨by omega, Or.inr ⟨by omega, Or.inl h5⟩⟩)
  · refine iff_of_false (by simp) ?_
    rintro (h | ⟨he, h | ⟨he2, h | ⟨he3, _⟩⟩⟩) <;> omega
  · exact iff_of_true rfl
      (Or.inr ⟨by omega, Or.inr ⟨by omega, Or.inr ⟨by omega, h7⟩⟩⟩)
  · refine iff_of_false (by simp) ?_
    rintro (h | ⟨he, h | ⟨he2, h | ⟨he3, hlex⟩⟩⟩)
    · omega
    · omega
    · omega
    · exact h7 hlex
  · refine iff_of_false (by simp) ?_
    rintro (h | ⟨he, h | ⟨he2, h | ⟨he3, hlex⟩⟩⟩)
    · omega
    · omega
    · omega
    · exact h7 hlex

theorem verLt_verEq_cases (v w : Version) :
    (verLt v w = true ∧ verEq v w = false ∧ verLt w v = false) ∨
    (verLt v w = false ∧ verEq v w = true ∧ verLt w v = false) ∨
    (verLt v w = false ∧ verEq v w = false ∧ verLt w v = true) := by
  rcases Nat.lt_trichotomy v.major w.major with h1 | h1 | h1
  · left
    refine ⟨?_, ?_, ?_⟩ <;>
      simp [verLt, verEq, h1, Nat.lt_asymm h1, Nat.ne_of_lt h1]
  · rcases Nat.lt_trichotomy v.minor w.minor with h2 | h2 | h2
    · left
      refine ⟨?_, ?_, ?_⟩ <;>
        simp [verLt, verEq, h1, h2, Nat.lt_asymm h2, Nat.ne_of_lt h2]
    · rcases Nat.lt_trichotomy v.patch w.patch with h3 | h3 | h3
      · left
        refine ⟨?_, ?_, ?_⟩ <;>
          simp [verLt, verEq, h1, h2, h3, Nat.lt_asymm h3, Nat.ne_of_lt h3]
      · rcases strsLt_trichot v.prerelease w.prerelease with
          ⟨hp1, hp2, hp3⟩ | ⟨hp1, hp2, hp3⟩ | ⟨hp1, hp2, hp3⟩
        · left
          refine ⟨?_, ?_, ?_⟩ <;>
            simp [verLt, verEq, h1, h2, h3, hp1, hp2, hp3]
        · right; left
          refine ⟨?_, ?_, ?_⟩ <;>
            simp [verLt, verEq, h1, h2, h3, hp1, hp2, hp3, strsLt_irrefl]
        · right; right
          refine ⟨?_, ?_, ?_⟩ <;>
            simp [verLt, verEq, h1, h2, h3, hp1, hp2, hp3]
      · right; right
        refine ⟨?_, ?_, ?_⟩ <;>
          simp [verLt, verEq, h1, h2, h3, Nat.lt_asymm h3, Nat.ne_of_gt h3]
    · right; right
      refine ⟨?_, ?_, ?_⟩ <;>
        simp [verLt, verEq, h1, h2, Nat.lt_asymm h2, Nat.ne_of_gt h2]
  · right; right
    refine ⟨?_, ?_, ?_⟩ <;>
      simp [verLt, verEq, h1, Nat.lt_asymm h1, Nat.ne_of_gt h1]

/-- C5: the comparison operators form a strict total order on versions
modulo build: for all `v` and `w` exactly one of `v < w`, `v == w`,
`w < v` holds; `<` agrees with the lexicographic order on
`(major, minor, patch, prerelease)` in that priority (`specLt`), `==`
is equality of that 4-tuple, and two versions differing only in
`build` are equal and neither is less than the other. -/
theorem comparison_is_strict_total_order_mod_build (v w : Version) :
    ((verLt v w = true ∧ verEq v w = false ∧ verLt w v = false) ∨
     (verLt v w = false ∧ verEq v w = true ∧ verLt w v = false) ∨
     (verLt v w = false ∧ verEq v w = false ∧ verLt w v = true)) ∧
    (verLt v w = true ↔ specLt v w) ∧
    (verEq v w = true ↔
      v.major = w.major ∧ v.minor = w.minor ∧ v.patch = w.patch ∧
        v.prerelease = w.prerelease) ∧
    (∀ b₁ b₂ : List String,
      verEq { v with build := b₁ } { v with build := b₂ } = true ∧
      verLt { v with build := b₁ } { v with build := b₂ } = false) := by
  refine ⟨verLt_verEq_cases v w, verLt_iff_specLt v w, verEq_iff v w, ?_⟩
  intro b₁ b₂
  constructor
  · simp [verEq]
  · simp [verLt, strsLt_irrefl]

/-- C1 counterexample: `Version(1,0,0,{"alpha"}) < Version(1,0,0)` is
in fact `false`: `std::vector` sequence comparison makes the empty
prerelease sequence (a strict prefix) the smaller one. -/
theorem prerelease_not_lt_release :
    verLt { major := 1, minor := 0, patch := 0, prerelease := ["alpha"], build := [] }
      { major := 1, minor := 0, patch := 0, prerelease := [], build := [] } = false := by
  decide

/-- C1 (amended): with `major`, `minor`, `patch` identical, the version
with the EMPTY prerelease sequence compares less than the one with a
non-empty prerelease sequence (a prefix is less under sequence
comparison); in particular `Version(1,0,0) < Version(1,0,0,{"alpha"})`
and not the other way around. -/
theorem release_lt_prerelease (v w : Version) (hmaj : v.major = w.major)
    (hmin : v.minor = w.minor) (hpat : v.patch = w.patch)
    (hv : v.prerelease = []) (hw : w.prerelease ≠ []) :
    verLt v w = true ∧ verLt w v = false := by
  obtain ⟨q, qs, hq⟩ := List.exists_cons_of_ne_nil hw
  constructor
  · simp [verLt, hmaj, hmin, hpat, hv, hq, strsLt_nil_cons]
  · simp [verLt, hmaj, hmin, hpat, hv, hq, strsLt_nil_cons, strsLt_nil_right]

/-- Witness for C1 (amended), at `Version(1,0,0)` and
`Version(1,0,0,{"alpha"})`. -/
theorem release_lt_prerelease_witness :
    verLt { major := 1, minor := 0, patch := 0, prerelease := [], build := [] }
      { major := 1, minor := 0, patch := 0, prerelease := ["alpha"], build := [] } = true ∧
    verLt { major := 1, minor := 0, patch := 0, prerelease := ["alpha"], build := [] }
      { major := 1, minor := 0, patch := 0, prerelease := [], build := [] } = false :=
  release_lt_prerelease _ _ rfl rfl rfl rfl (by decide)

/-! ## The explicit-fields constructor -/

theorem any_isEmpty_iff (l : List String) :
    (l.any (fun element => element.isEmpty)) = true ↔ "" ∈ l := by
  simp only [List.any_eq_true, String.isEmpty_iff]
  constructor
  · rintro ⟨x, hx, rfl⟩; exact hx
  · intro h; exact ⟨"", h, rfl⟩

/-- C6: the explicit-fields constructor raises `InvalidArgument` if
and only if some supplied prerelease or build element is the empty
string; on success the stored fields are exactly the arguments, and on
failure no object is produced (the result is the error alone). -/
theorem explicit_ctor_validates (major minor patch : Nat)
    (pre bld : List String) :
    (isInvalidArg (mkVersion major minor patch pre bld) = true ↔
      "" ∈ pre ∨ "" ∈ bld) ∧
    (∀ v, mkVersion major minor patch pre bld = .ok v →
      v.major = major ∧ v.minor = minor ∧ v.patch = patch ∧
        v.prerelease = pre ∧ v.build = bld) ∧
    ("" ∉ pre → "" ∉ bld →
      mkVersion major minor patch pre bld =
        .ok { major := major, minor := minor, patch := patch,
              prerelease := pre, build := bld }) := by
  by_cases hp : "" ∈ pre
  · have hp2 : (pre.any (fun element => element.isEmpty)) = true :=
      (any_isEmpty_iff pre).mpr hp
    refine ⟨?_, ?_, ?_⟩
    · rw [mkVersion, if_pos hp2]
      exact iff_of_true rfl (Or.inl hp)
    · intro v hv
      rw [mkVersion, if_pos hp2] at hv
      cases hv
    · intro h _; exact absurd hp h
  · have hp2 : ¬((pre.any (fun element => element.isEmpty)) = true) :=
      fun h => hp ((any_isEmpty_iff pre).mp h)
    by_cases hb : "" ∈ bld
    · have hb2 : (bld.any (fun element => element.isEmpty)) = true :=
        (any_isEmpty_iff bld).mpr hb
      refine ⟨?_, ?_, ?_⟩
      · rw [mkVersion, if_neg hp2, if_pos hb2]
        exact iff_of_true rfl (Or.inr hb)
      · intro v hv
        rw [mkVersion, if_neg hp2, if_pos hb2] at hv
        cases hv
      · intro _ h; exact absurd hb h
    · have hb2 : ¬((bld.any (fun element => element.isEmpty)) = true) :=
        fun h => hb ((any_isEmpty_iff bld).mp h)
      have hok : mkVersion major minor patch pre bld =
          .ok { major := major, minor := minor, patch := patch,
                prerelease := pre, build := bld } := by
        rw [mkVersion, if_neg hp2, if_neg hb2]
      refine ⟨?_, ?_, fun _ _ => hok⟩
      · rw [hok]
        exact iff_of_false (by simp [isInvalidArg]) (by tauto)
      · intro v hv
        rw [hok] at hv
        cases hv
        exact ⟨rfl, rfl, rfl, rfl, rfl⟩

/-- Witness for C6: success at `(1,0,0,{"alpha"},{"b1"})` and failure
at `(1,0,0,{""},{})`. -/
theorem explicit_ctor_validates_witness :
    mkVersion 1 0 0 ["alpha"] ["b1"] =
      .ok { major := 1, minor := 0, patch := 0,
            prerelease := ["alpha"], build := ["b1"] } ∧
    isInvalidArg (mkVersion 1 0 0 [""] []) = true :=
  ⟨(explicit_ctor_validates 1 0 0 ["alpha"] ["b1"]).2.2
      (by decide) (by decide),
    ((explicit_ctor_validates 1 0 0 [""] []).1).mpr (Or.inl (by decide))⟩

/-! ## The element-non-emptiness invariant (C2)

The default, explicit-fields and structured-value construction paths
do maintain it; the text-parse path does not: parsing `"1.2.3-"`
succeeds and stores the empty prerelease tag. -/

theorem readTags_ok_no_empty (m₁ m₂ : String) :
    ∀ elems tags, readTags m₁ m₂ elems = .ok tags → "" ∉ tags
  | [], tags, h => by
    cases h
    simp
  | e :: es, tags, h => by
    rw [readTags] at h
    by_cases hs : e.isString = true
    · simp only [hs, Bool.not_true, Bool.false_eq_true, if_false] at h
      by_cases he : e.asString.isEmpty = true
      · rw [if_pos he] at h; cases h
      · rw [if_neg he] at h
        cases hrest : readTags m₁ m₂ es with
        | error err => rw [hrest] at h; cases h
        | ok ts =>
          rw [hrest] at h
          cases h
          intro hmem
          rcases List.mem_cons.mp hmem with heq | hmem2
          · exact he ((String.isEmpty_iff _).mpr heq.symm)
          · exact readTags_ok_no_empty m₁ m₂ es ts hrest hmem2
    · simp only [Bool.not_eq_true] at hs
      simp only [hs, Bool.not_false, if_true] at h
      cases h

theorem readOptTags_ok_no_empty (json : JValue) (key m₁ m₂ m₃ : String)
    (tags : List String) (h : readOptTags json key m₁ m₂ m₃ = .ok tags) :
    "" ∉ tags := by
  rw [readOptTags] at h
  by_cases hk : json.hasKey key = true
  · rw [if_pos hk] at h
    by_cases ha : (json.index key).isArray = true
    · simp only [ha, Bool.not_true, Bool.false_eq_true, if_false] at h
      exact readTags_ok_no_empty m₂ m₃ _ tags h
    · simp only [Bool.not_eq_true] at ha
      simp only [ha, Bool.not_false, if_true] at h
      cases h
  · rw [if_neg hk] at h
    cases h
    simp

theorem fromJson_ok_no_empty (json : JValue) (v : Version)
    (h : fromJson json = .ok v) : "" ∉ v.prerelease ∧ "" ∉ v.build := by
  rw [fromJson] at h
  by_cases h1 : json.isObject = true
  case neg =>
    simp only [Bool.not_eq_true] at h1
    simp only [h1, Bool.not_false, if_true] at h
    cases h
  case pos =>
  simp only [h1, Bool.not_true, Bool.false_eq_true, if_false] at h
  by_cases h2 : (json.hasKey "major" && (json.index "major").isUnsignedInteger) = true
  case neg =>
    simp only [Bool.not_eq_true] at h2
    simp only [h2, Bool.not_false, if_true] at h
    cases h
  case pos =>
  simp only [h2, Bool.not_true, Bool.false_eq_true, if_false] at h
  by_cases h3 : (json.hasKey "minor" && (json.index "minor").isUnsignedInteger) = true
  case neg =>
    simp only [Bool.not_eq_true] at h3
    simp only [h3, Bool.not_false, if_true] at h
    cases h
  case pos =>
  simp only [h3, Bool.not_true, Bool.false_eq_true, if_false] at h
  by_cases h4 : (json.hasKey "patch" && (json.index "patch").isUnsignedInteger) = true
  case neg =>
    simp only [Bool.not_eq_true] at h4
    simp only [h4, Bool.not_false, if_true] at h
    cases h
  case pos =>
  simp only [h4, Bool.not_true, Bool.false_eq_true, if_false] at h
  cases hpre : optPrerelease json with
    | error e => rw [hpre] at h; cases h
    | ok pre =>
      rw [hpre] at h
      cases hbld : optBuild json with
      | error e => rw [hbld] at h; cases h
      | ok bld =>
        rw [hbld] at h
        cases h
        exact ⟨readOptTags_ok_no_empty _ _ _ _ _ _ hpre,
          readOptTags_ok_no_empty _ _ _ _ _ _ hbld⟩

/-- C2 counterexample: the text-parse construction path violates the
invariant: parsing the string `"1.2.3-"` raises no error and produces
a version whose prerelease sequence holds the empty string. -/
theorem parse_breaks_invariant :
    parseText "1.2.3-" =
      .ok { major := 1, minor := 2, patch := 3,
            prerelease := [""], build := [] } ∧
    "" ∈ (Version.prerelease
      { major := 1, minor := 2, patch := 3, prerelease := [""], build := [] }) :=
  ⟨rfl, by decide⟩

/-! ## Error analysis of the structured-value constructor (C7) -/

theorem readTags_error_shape (m₁ m₂ : String) :
    ∀ elems err, readTags m₁ m₂ elems = .error err →
      ∃ msg, err = SemverError.invalidArgument msg
  | [], err, h => by cases h
  | e :: es, err, h => by
    rw [readTags] at h
    by_cases hs : e.isString = true
    · simp only [hs, Bool.not_true, Bool.false_eq_true, if_false] at h
      by_cases he : e.asString.isEmpty = true
      · rw [if_pos he] at h
        cases h
        exact ⟨m₂, rfl⟩
      · rw [if_neg he] at h
        cases hrest : readTags m₁ m₂ es with
        | error err2 =>
          rw [hrest] at h
          cases h
          exact readTags_error_shape m₁ m₂ es _ hrest
        | ok ts => rw [hrest] at h; cases h
    · simp only [Bool.not_eq_true] at hs
      simp only [hs, Bool.not_false, if_true] at h
      cases h
      exact ⟨m₁, rfl⟩

theorem readOptTags_error_shape (json : JValue) (key m₁ m₂ m₃ : String)
    (err : SemverError) (h : readOptTags json key m₁ m₂ m₃ = .error err) :
    ∃ msg, err = SemverError.invalidArgument msg := by
  rw [readOptTags] at h
  by_cases hk : json.hasKey key = true
  · rw [if_pos hk] at h
    by_cases ha : (json.index key).isArray = true
    · simp only [ha, Bool.not_true, Bool.false_eq_true, if_false] at h
      exact readTags_error_shape m₂ m₃ _ err h
    · simp only [Bool.not_eq_true] at ha
      simp only [ha, Bool.not_false, if_true] at h
      cases h
      exact ⟨m₁, rfl⟩
  · rw [if_neg hk] at h
    cases h

theorem fromJson_error_shape (json : JValue) (err : SemverError)
    (h : fromJson json = .error err) :
    ∃ msg, err = SemverError.invalidArgument msg := by
  rw [fromJson] at h
  by_cases h1 : json.isObject = true
  case neg =>
    simp only [Bool.not_eq_true] at h1
    simp only [h1, Bool.not_false, if_true] at h
    cases h
    exact ⟨_, rfl⟩
  case pos =>
  simp only [h1, Bool.not_true, Bool.false_eq_true, if_false] at h
  by_cases h2 : (json.hasKey "major" && (json.index "major").isUnsignedInteger) = true
  case neg =>
    simp only [Bool.not_eq_true] at h2
    simp only [h2, Bool.not_false, if_true] at h
    cases h
    exact ⟨_, rfl⟩
  case pos =>
  simp only [h2, Bool.not_true, Bool.false_eq_true, if_false] at h
  by_cases h3 : (json.hasKey "minor" && (json.index "minor").isUnsignedInteger) = true
  case neg =>
    simp only [Bool.not_eq_true] at h3
    simp only [h3, Bool.not_false, if_true] at h
    cases h
    exact ⟨_, rfl⟩
  case pos =>
  simp only [h3, Bool.not_true, Bool.false_eq_true, if_false] at h
  by_cases h4 : (json.hasKey "patch" && (json.index "patch").isUnsignedInteger) = true
  case neg =>
    simp only [Bool.not_eq_true] at h4
    simp only [h4, Bool.not_false, if_true] at h
    cases h
    exact ⟨_, rfl⟩
  case pos =>
  simp only [h4, Bool.not_true, Bool.false_eq_true, if_false] at h
  cases hpre : optPrerelease json with
  | error e =>
    rw [hpre] at h
    cases h
    exact readOptTags_error_shape _ _ _ _ _ _ hpre
  | ok pre =>
    rw [hpre] at h
    cases hbld : optBuild json with
    | error e =>
      rw [hbld] at h
      cases h
      exact readOptTags_error_shape _ _ _ _ _ _ hbld
    | ok bld => rw [hbld] at h; cases h

theorem fromJson_not_ok (json : JValue)
    (hno : ∀ v, fromJson json ≠ .ok v) : isInvalidArg (fromJson json) = true := by
  cases hfj : fromJson json with
  | ok v => exact absurd hfj (hno v)
  | error err =>
    obtain ⟨msg, rfl⟩ := fromJson_error_shape json err hfj
    rw [isInvalidArg]

theorem fromJson_ok_inversion (json : JValue) (v : Version)
    (h : fromJson json = .ok v) :
    json.isObject = true ∧
    (json.hasKey "major" && (json.index "major").isUnsignedInteger) = true ∧
    (json.hasKey "minor" && (json.index "minor").isUnsignedInteger) = true ∧
    (json.hasKey "patch" && (json.index "patch").isUnsignedInteger) = true ∧
    optPrerelease json = .ok v.prerelease ∧
    optBuild json = .ok v.build ∧
    v.major = (json.index "major").asUnsignedInteger % 2 ^ 32 ∧
    v.minor = (json.index "minor").asUnsignedInteger % 2 ^ 32 ∧
    v.patch = (json.index "patch").asUnsignedInteger % 2 ^ 32 := by
  rw [fromJson] at h
  by_cases h1 : json.isObject = true
  case neg =>
    simp only [Bool.not_eq_true] at h1
    simp only [h1, Bool.not_false, if_true] at h
    cases h
  case pos =>
  simp only [h1, Bool.not_true, Bool.false_eq_true, if_false] at h
  by_cases h2 : (json.hasKey "major" && (json.index "major").isUnsignedInteger) = true
  case neg =>
    simp only [Bool.not_eq_true] at h2
    simp only [h2, Bool.not_false, if_true] at h
    cases h
  case pos =>
  simp only [h2, Bool.not_true, Bool.false_eq_true, if_false] at h
  by_cases h3 : (json.hasKey "minor" && (json.index "minor").isUnsignedInteger) = true
  case neg =>
    simp only [Bool.not_eq_true] at h3
    simp only [h3, Bool.not_false, if_true] at h
    cases h
  case pos =>
  simp only [h3, Bool.not_true, Bool.false_eq_true, if_false] at h
  by_cases h4 : (json.hasKey "patch" && (json.index "patch").isUnsignedInteger) = true
  case neg =>
    simp only [Bool.not_eq_true] at h4
    simp only [h4, Bool.not_false, if_true] at h
    cases h
  case pos =>
  simp only [h4, Bool.not_true, Bool.false_eq_true, if_false] at h
  cases hpre : optPrerelease json with
  | error e => rw [hpre] at h; cases h
  | ok pre =>
    rw [hpre] at h
    cases hbld : optBuild json with
    | error e => rw [hbld] at h; cases h
    | ok bld =>
      rw [hbld] at h
      cases h
      exact ⟨h1, h2, h3, h4, rfl, rfl, rfl, rfl, rfl⟩

theorem mem_asArray_isArray {j : JValue} {e : JValue} (h : e ∈ j.asArray) :
    j.isArray = true := by
  cases j with
  | array elements => rfl
  | null => cases h
  | boolean b => cases h
  | unsignedInteger n => cases h
  | signedInteger n => cases h
  | string s => cases h
  | object fields => cases h

theorem readTags_error_of_bad (m₁ m₂ : String) :
    ∀ elems, (∃ e ∈ elems, e.isString = false ∨ e.asString = "") →
      ∃ msg, readTags m₁ m₂ elems = .error (.invalidArgument msg)
  | [], hex => by
    rcases hex with ⟨e, he, -⟩
    cases he
  | e₀ :: es, hex => by
    by_cases hs : e₀.isString = true
    · by_cases he : e₀.asString.isEmpty = true
      · refine ⟨m₂, ?_⟩
        rw [readTags]
        simp only [hs, Bool.not_true, Bool.false_eq_true, if_false, if_pos he]
      · have hgood : ¬(e₀.isString = false ∨ e₀.asString = "") := by
          rintro (hb | hb)
          · rw [hs] at hb; cases hb
          · exact he ((String.isEmpty_iff _).mpr hb)
        rcases hex with ⟨e, hmem, hbad⟩
        rcases List.mem_cons.mp hmem with rfl | hin
        · exact absurd hbad hgood
        · obtain ⟨msg, hmsg⟩ := readTags_error_of_bad m₁ m₂ es ⟨e, hin, hbad⟩
          refine ⟨msg, ?_⟩
          rw [readTags]
          simp only [hs, Bool.not_true, Bool.false_eq_true, if_false,
            if_neg he, hmsg]
    · refine ⟨m₁, ?_⟩
      simp only [Bool.not_eq_true] at hs
      rw [readTags]
      simp only [hs, Bool.not_false, if_true]

theorem readOptTags_error_of_bad (json : JValue) (key m₁ m₂ m₃ : String)
    (hk : json.hasKey key = true)
    (hbad : (json.index key).isArray = false ∨
      ∃ e ∈ (json.index key).asArray, e.isString = false ∨ e.asString = "") :
    ∃ msg, readOptTags json key m₁ m₂ m₃ = .error (.invalidArgument msg) := by
  rw [readOptTags, if_pos hk]
  cases hbad with
  | inl ha =>
    refine ⟨m₁, ?_⟩
    simp only [ha, Bool.not_false, if_true]
  | inr hex =>
    have ha : (json.index key).isArray = true := by
      rcases hex with ⟨e, hmem, -⟩
      exact mem_asArray_isArray hmem
    obtain ⟨msg, hmsg⟩ := readTags_error_of_bad m₂ m₃ _ hex
    refine ⟨msg, ?_⟩
    simp only [ha, Bool.not_true, Bool.false_eq_true, if_false, hmsg]

/-- C2 (amended): the invariant — every element of `prerelease` and
`build` is non-empty, and an attempt to construct with an empty
element fails with `InvalidArgument` — holds for the default,
explicit-fields, and structured-value construction paths (the last
clause: a structured value whose present `prerelease`/`build` array
holds an empty string is rejected with `InvalidArgument`), but NOT
for the parse-from-text path, which performs no such validation. -/
theorem construction_invariant_amended :
    ("" ∉ defaultVersion.prerelease ∧ "" ∉ defaultVersion.build) ∧
    (∀ major minor patch pre bld v,
      mkVersion major minor patch pre bld = .ok v →
        "" ∉ v.prerelease ∧ "" ∉ v.build) ∧
    (∀ major minor patch pre bld,
      ("" ∈ pre ∨ "" ∈ bld) →
        isInvalidArg (mkVersion major minor patch pre bld) = true) ∧
    (∀ json v, fromJson json = .ok v → "" ∉ v.prerelease ∧ "" ∉ v.build) ∧
    (∀ (json : JValue) (key : String),
      key ∈ (["prerelease", "build"] : List String) →
      json.hasKey key = true →
      (∃ e ∈ (json.index key).asArray, e.isString = true ∧ e.asString = "") →
      isInvalidArg (fromJson json) = true) := by
  refine ⟨⟨by simp [defaultVersion], by simp [defaultVersion]⟩, ?_, ?_,
    fromJson_ok_no_empty, ?_⟩
  · intro major minor patch pre bld v hv
    obtain ⟨-, -, -, hpre, hbld⟩ :=
      (explicit_ctor_validates major minor patch pre bld).2.1 v hv
    subst hpre; subst hbld
    constructor
    · intro hmem
      have := ((explicit_ctor_validates major minor patch v.prerelease v.build).1).mpr
        (Or.inl hmem)
      rw [hv] at this
      simp [isInvalidArg] at this
    · intro hmem
      have := ((explicit_ctor_validates major minor patch v.prerelease v.build).1).mpr
        (Or.inr hmem)
      rw [hv] at this
      simp [isInvalidArg] at this
  · intro major minor patch pre bld hmem
    exact ((explicit_ctor_validates major minor patch pre bld).1).mpr hmem
  · intro json key hkmem hk hex
    apply fromJson_not_ok
    intro v hv
    obtain ⟨-, -, -, -, hpre, hbld, -, -, -⟩ := fromJson_ok_inversion json v hv
    have hbad : (json.index key).isArray = false ∨
        ∃ e ∈ (json.index key).asArray, e.isString = false ∨ e.asString = "" := by
      rcases hex with ⟨e, hm, -, he⟩
      exact Or.inr ⟨e, hm, Or.inr he⟩
    simp only [List.mem_cons, List.mem_singleton, List.not_mem_nil,
      or_false] at hkmem
    rcases hkmem with rfl | rfl
    · obtain ⟨msg, hmsg⟩ := readOptTags_error_of_bad json "prerelease"
        "semver json prerelease is not an array"
        "semver json prerelease contains a non-string element"
        "semver json prerelease element may not be empty" hk hbad
      simp only [optPrerelease] at hpre
      rw [hmsg] at hpre
      cases hpre
    · obtain ⟨msg, hmsg⟩ := readOptTags_error_of_bad json "build"
        "semver json build is not an array"
        "semver json build contains a non-string element"
        "semver json build element may not be empty" hk hbad
      simp only [optBuild] at hbld
      rw [hmsg] at hbld
      cases hbld

/-- Witness for C2 (amended): the explicit-fields and structured-value
paths at concrete inputs, including a structured value whose `build`
array holds an empty string being rejected. -/
theorem construction_invariant_amended_witness :
    ("" ∉ (Version.mk 1 0 0 ["alpha"] []).prerelease ∧
      "" ∉ (Version.mk 1 0 0 ["alpha"] []).build) ∧
    isInvalidArg (mkVersion 1 0 0 [""] []) = true ∧
    ("" ∉ (Version.mk 1 0 0 [] []).prerelease ∧
      "" ∉ (Version.mk 1 0 0 [] []).build) ∧
    isInvalidArg (fromJson (.object [("major", .unsignedInteger 1),
      ("minor", .unsignedInteger 0), ("patch", .unsignedInteger 0),
      ("build", .array [.string ""])])) = true :=
  ⟨construction_invariant_amended.2.1 1 0 0 ["alpha"] [] _ rfl,
    construction_invariant_amended.2.2.1 1 0 0 [""] [] (Or.inl (by decide)),
    construction_invariant_amended.2.2.2.1
      (.object [("major", .unsignedInteger 1), ("minor", .unsignedInteger 0),
        ("patch", .unsignedInteger 0)]) _ rfl,
    construction_invariant_amended.2.2.2.2
      (.object [("major", .unsignedInteger 1), ("minor", .unsignedInteger 0),
        ("patch", .unsignedInteger 0), ("build", .array [.string ""])])
      "build" (by simp) rfl ⟨.string "", List.Mem.head _, rfl, rfl⟩⟩

/-- C7: construction from a structured value fails with
`InvalidArgument` when the node is not an object, when a `major`,
`minor` or `patch` key is missing or not an unsigned integer, or when
a present `prerelease`/`build` key is not an array or holds a
non-string or empty-string element; when both optional keys are
absent and the three integer keys are well-formed, construction
succeeds with empty sequences — in particular on
`{"major":1,"minor":0,"patch":0}`. -/
theorem structured_ctor_errors :
    (∀ json : JValue, json.isObject = false → isInvalidArg (fromJson json) = true) ∧
    (∀ (json : JValue) (key : String),
      key ∈ (["major", "minor", "patch"] : List String) →
      json.hasKey key = false ∨ (json.index key).isUnsignedInteger = false →
      isInvalidArg (fromJson json) = true) ∧
    (∀ (json : JValue) (key : String),
      key ∈ (["prerelease", "build"] : List String) →
      json.hasKey key = true →
      ((json.index key).isArray = false ∨
        ∃ e ∈ (json.index key).asArray, e.isString = false ∨ e.asString = "") →
      isInvalidArg (fromJson json) = true) ∧
    (∀ (json : JValue) (m n p : Nat),
      json.find "major" = some (.unsignedInteger m) →
      json.find "minor" = some (.unsignedInteger n) →
      json.find "patch" = some (.unsignedInteger p) →
      json.hasKey "prerelease" = false →
      json.hasKey "build" = false →
      fromJson json =
        .ok (Version.mk (m % 2 ^ 32) (n % 2 ^ 32) (p % 2 ^ 32) [] [])) ∧
    fromJson (.object [("major", .unsignedInteger 1), ("minor", .unsignedInteger 0),
      ("patch", .unsignedInteger 0)]) = .ok (Version.mk 1 0 0 [] []) := by
  refine ⟨?_, ?_, ?_, ?_, rfl⟩
  · intro json h
    rw [fromJson]
    simp only [h, Bool.not_false, if_true]
    rw [isInvalidArg]
  · intro json key hkmem hbad
    apply fromJson_not_ok
    intro v hv
    obtain ⟨-, hmaj, hmin, hpat, -, -, -, -, -⟩ := fromJson_ok_inversion json v hv
    simp only [List.mem_cons, List.mem_singleton, List.not_mem_nil,
      or_false] at hkmem
    rcases hkmem with rfl | rfl | rfl
    · rw [Bool.and_eq_true] at hmaj
      rcases hbad with hb | hb
      · rw [hmaj.1] at hb; cases hb
      · rw [hmaj.2] at hb; cases hb
    · rw [Bool.and_eq_true] at hmin
      rcases hbad with hb | hb
      · rw [hmin.1] at hb; cases hb
      · rw [hmin.2] at hb; cases hb
    · rw [Bool.and_eq_true] at hpat
      rcases hbad with hb | hb
      · rw [hpat.1] at hb; cases hb
      · rw [hpat.2] at hb; cases hb
  · intro json key hkmem hk hbad
    apply fromJson_not_ok
    intro v hv
    obtain ⟨-, -, -, -, hpre, hbld, -, -, -⟩ := fromJson_ok_inversion json v hv
    simp only [List.mem_cons, List.mem_singleton, List.not_mem_nil,
      or_false] at hkmem
    rcases hkmem with rfl | rfl
    · obtain ⟨msg, hmsg⟩ := readOptTags_error_of_bad json "prerelease"
        "semver json prerelease is not an array"
        "semver json prerelease contains a non-string element"
        "semver json prerelease element may not be empty" hk hbad
      simp only [optPrerelease] at hpre
      rw [hmsg] at hpre
      cases hpre
    · obtain ⟨msg, hmsg⟩ := readOptTags_error_of_bad json "build"
        "semver json build is not an array"
        "semver json build contains a non-string element"
        "semver json build element may not be empty" hk hbad
      simp only [optBuild] at hbld
      rw [hmsg] at hbld
      cases hbld
  · intro json m n p hmaj hmin hpat hnopre hnobld
    have hobj : json.isObject = true := by
      cases json with
      | object fields => rfl
      | null => exact absurd hmaj (by simp [JValue.find])
      | boolean b => exact absurd hmaj (by simp [JValue.find])
      | unsignedInteger k => exact absurd hmaj (by simp [JValue.find])
      | signedInteger k => exact absurd hmaj (by simp [JValue.find])
      | string s => exact absurd hmaj (by simp [JValue.find])
      | array elements => exact absurd hmaj (by simp [JValue.find])
    have hkmaj : json.hasKey "major" = true := by
      rw [JValue.hasKey, hmaj]; rfl
    have hkmin : json.hasKey "minor" = true := by
      rw [JValue.hasKey, hmin]; rfl
    have hkpat : json.hasKey "patch" = true := by
      rw [JValue.hasKey, hpat]; rfl
    have hidxmaj : json.index "major" = .unsignedInteger m := by
      rw [JValue.index, hmaj]; rfl
    have hidxmin : json.index "minor" = .unsignedInteger n := by
      rw [JValue.index, hmin]; rfl
    have hidxpat : json.index "patch" = .unsignedInteger p := by
      rw [JValue.index, hpat]; rfl
    have hpre : optPrerelease json = .ok [] := by
      simp only [optPrerelease, readOptTags, hnopre, Bool.false_eq_true, if_false]
    have hbld : optBuild json = .ok [] := by
      simp only [optBuild, readOptTags, hnobld, Bool.false_eq_true, if_false]
    rw [fromJson]
    simp only [hobj, hkmaj, hkmin, hkpat, hidxmaj, hidxmin, hidxpat,
      JValue.isUnsignedInteger, JValue.asUnsignedInteger, Bool.and_self,
      Bool.not_true, Bool.false_eq_true, if_false, hpre, hbld]

/-- Witness for C7: a non-object node, an object missing `patch`, a
`prerelease` array holding an empty string, and the bare
`{"major":1,"minor":0,"patch":0}` object. -/
theorem structured_ctor_errors_witness :
    isInvalidArg (fromJson .null) = true ∧
    isInvalidArg (fromJson (.object [("major", .unsignedInteger 1),
      ("minor", .unsignedInteger 0)])) = true ∧
    isInvalidArg (fromJson (.object [("major", .unsignedInteger 1),
      ("minor", .unsignedInteger 0), ("patch", .unsignedInteger 0),
      ("prerelease", .array [.string ""])])) = true ∧
    fromJson (.object [("major", .unsignedInteger 1), ("minor", .unsignedInteger 0),
      ("patch", .unsignedInteger 0)]) = .ok (Version.mk 1 0 0 [] []) :=
  ⟨structured_ctor_errors.1 .null rfl,
    structured_ctor_errors.2.1 _ "patch" (by simp) (Or.inl rfl),
    structured_ctor_errors.2.2.1 _ "prerelease" (by simp) rfl
      (Or.inr ⟨.string "", List.Mem.head _, Or.inr rfl⟩),
    structured_ctor_errors.2.2.2.1 _ 1 0 0 rfl rfl rfl rfl rfl⟩

/-! ## Round trip through the structured value (C4) -/

theorem readTags_map_string (m₁ m₂ : String) :
    ∀ l : List String, "" ∉ l →
      readTags m₁ m₂ (l.map JValue.string) = .ok l
  | [], _ => rfl
  | s :: ss, h => by
    rw [List.map_cons, readTags]
    have hsne : ¬(s.isEmpty = true) := by
      intro hemp
      have hs : s = "" := (String.isEmpty_iff _).mp hemp
      exact h (hs ▸ List.Mem.head _)
    have htail : "" ∉ ss := fun hm => h (List.Mem.tail _ hm)
    simp only [JValue.isString, JValue.asString, Bool.not_true,
      Bool.false_eq_true, if_false, if_neg hsne,
      readTags_map_string m₁ m₂ ss htail]

theorem toJson_find_major (v : Version) :
    (toJson v).find "major" = some (.unsignedInteger v.major) := by
  simp [toJson, JValue.find]

theorem toJson_find_minor (v : Version) :
    (toJson v).find "minor" = some (.unsignedInteger v.minor) := by
  simp [toJson, JValue.find]

theorem toJson_find_patch (v : Version) :
    (toJson v).find "patch" = some (.unsignedInteger v.patch) := by
  simp [toJson, JValue.find]

theorem toJson_find_prerelease (v : Version) :
    (toJson v).find "prerelease" =
      if v.prerelease.isEmpty then none
      else some (.array (v.prerelease.map JValue.string)) := by
  cases hp : v.prerelease with
  | nil =>
    cases hb : v.build with
    | nil => simp [toJson, JValue.find, hp, hb]
    | cons b bs => simp [toJson, JValue.find, hp, hb]
  | cons s ss =>
    cases hb : v.build with
    | nil => simp [toJson, JValue.find, hp, hb]
    | cons b bs => simp [toJson, JValue.find, hp, hb]

theorem toJson_find_build (v : Version) :
    (toJson v).find "build" =
      if v.build.isEmpty then none
      else some (.array (v.build.map JValue.string)) := by
  cases hp : v.prerelease with
  | nil =>
    cases hb : v.build with
    | nil => simp [toJson, JValue.find, hp, hb]
    | cons b bs => simp [toJson, JValue.find, hp, hb]
  | cons s ss =>
    cases hb : v.build with
    | nil => simp [toJson, JValue.find, hp, hb]
    | cons b bs => simp [toJson, JValue.find, hp, hb]

theorem optPrerelease_toJson (v : Version) (hpre : "" ∉ v.prerelease) :
    optPrerelease (toJson v) = .ok v.prerelease := by
  rw [optPrerelease, readOptTags]
  cases hp : v.prerelease with
  | nil =>
    have hk : (toJson v).hasKey "prerelease" = false := by
      rw [JValue.hasKey, toJson_find_prerelease, hp]
      rfl
    simp only [hk, Bool.false_eq_true, if_false]
  | cons s ss =>
    have hfind : (toJson v).find "prerelease" =
        some (.array ((s :: ss).map JValue.string)) := by
      rw [toJson_find_prerelease, hp]
      rfl
    have hk : (toJson v).hasKey "prerelease" = true := by
      rw [JValue.hasKey, hfind]
      rfl
    have hidx : (toJson v).index "prerelease" =
        .array ((s :: ss).map JValue.string) := by
      rw [JValue.index, hfind]
      rfl
    rw [hp] at hpre
    simp only [hk, if_true, hidx, JValue.isArray, Bool.not_true,
      Bool.false_eq_true, if_false, JValue.asArray,
      readTags_map_string _ _ (s :: ss) hpre]

theorem optBuild_toJson (v : Version) (hbld : "" ∉ v.build) :
    optBuild (toJson v) = .ok v.build := by
  rw [optBuild, readOptTags]
  cases hb : v.build with
  | nil =>
    have hk : (toJson v).hasKey "build" = false := by
      rw [JValue.hasKey, toJson_find_build, hb]
      rfl
    simp only [hk, Bool.false_eq_true, if_false]
  | cons b bs =>
    have hfind : (toJson v).find "build" =
        some (.array ((b :: bs).map JValue.string)) := by
      rw [toJson_find_build, hb]
      rfl
    have hk : (toJson v).hasKey "build" = true := by
      rw [JValue.hasKey, hfind]
      rfl
    have hidx : (toJson v).index "build" =
        .array ((b :: bs).map JValue.string) := by
      rw [JValue.index, hfind]
      rfl
    rw [hb] at hbld
    simp only [hk, if_true, hidx, JValue.isArray, Bool.not_true,
      Bool.false_eq_true, if_false, JValue.asArray,
      readTags_map_string _ _ (b :: bs) hbld]

/-- C4: for every valid version (fields in `unsigned int` range, no
empty tags), constructing a `Version` from `toJson(v)` succeeds and
reproduces `major`, `minor`, `patch`, `prerelease`, `build` exactly;
and when `prerelease` (respectively `build`) is empty, `toJson(v)`
omits that key entirely. -/
theorem json_roundtrip (v : Version) (h1 : v.major < 2 ^ 32)
    (h2 : v.minor < 2 ^ 32) (h3 : v.patch < 2 ^ 32)
    (hpre : "" ∉ v.prerelease) (hbld : "" ∉ v.build) :
    fromJson (toJson v) = .ok v ∧
    (v.prerelease = [] → (toJson v).hasKey "prerelease" = false) ∧
    (v.build = [] → (toJson v).hasKey "build" = false) := by
  have hkmaj : (toJson v).hasKey "major" = true := by
    rw [JValue.hasKey, toJson_find_major]; rfl
  have hkmin : (toJson v).hasKey "minor" = true := by
    rw [JValue.hasKey, toJson_find_minor]; rfl
  have hkpat : (toJson v).hasKey "patch" = true := by
    rw [JValue.hasKey, toJson_find_patch]; rfl
  have hidxmaj : (toJson v).index "major" = .unsignedInteger v.major := by
    rw [JValue.index, toJson_find_major]; rfl
  have hidxmin : (toJson v).index "minor" = .unsignedInteger v.minor := by
    rw [JValue.index, toJson_find_minor]; rfl
  have hidxpat : (toJson v).index "patch" = .unsignedInteger v.patch := by
    rw [JValue.index, toJson_find_patch]; rfl
  refine ⟨?_, ?_, ?_⟩
  · have hobj : (toJson v).isObject = true := rfl
    rw [fromJson]
    simp only [hobj, hkmaj, hkmin, hkpat, hidxmaj, hidxmin, hidxpat,
      JValue.isUnsignedInteger, JValue.asUnsignedInteger, Bool.and_self,
      Bool.not_true, Bool.false_eq_true, if_false,
      optPrerelease_toJson v hpre, optBuild_toJson v hbld,
      Nat.mod_eq_of_lt h1, Nat.mod_eq_of_lt h2, Nat.mod_eq_of_lt h3]
  · intro hp
    rw [JValue.hasKey, toJson_find_prerelease, hp]
    rfl
  · intro hb
    rw [JValue.hasKey, toJson_find_build, hb]
    rfl

/-- Witness for C4: the round trip at `(1,2,3,{"alpha"},{"b1"})` and
the key omission at `(1,0,0,{},{})`. -/
theorem json_roundtrip_witness :
    fromJson (toJson (Version.mk 1 2 3 ["alpha"] ["b1"])) =
      .ok (Version.mk 1 2 3 ["alpha"] ["b1"]) ∧
    (toJson (Version.mk 1 0 0 [] [])).hasKey "prerelease" = false ∧
    (toJson (Version.mk 1 0 0 [] [])).hasKey "build" = false :=
  ⟨(json_roundtrip (Version.mk 1 2 3 ["alpha"] ["b1"]) (by decide) (by decide)
      (by decide) (by decide) (by decide)).1,
    (json_roundtrip (Version.mk 1 0 0 [] []) (by decide) (by decide)
      (by decide) (by decide) (by decide)).2.1 rfl,
    (json_roundtrip (Version.mk 1 0 0 [] []) (by decide) (by decide)
      (by decide) (by decide) (by decide)).2.2 rfl⟩

/-! ## The text form (C9) -/

/-- The tail of a dot-joined tag list: a leading dot before every
tag. -/
def dotTail : List String → String
  | [] => ""
  | t :: ts => "." ++ t ++ dotTail ts

theorem intercalate_go_eq : ∀ (as : List String) (acc : String),
    String.intercalate.go acc "." as = acc ++ dotTail as
  | [], acc => (String.append_empty acc).symm
  | a :: as, acc => by
    show String.intercalate.go (acc ++ "." ++ a) "." as = acc ++ dotTail (a :: as)
    rw [intercalate_go_eq as (acc ++ "." ++ a), dotTail]
    rw [String.append_assoc, String.append_assoc, String.append_assoc]

theorem intercalate_eq_dotTail (a : String) (as : List String) :
    String.intercalate "." (a :: as) = a ++ dotTail as :=
  intercalate_go_eq as a

theorem joinTags_eq_intercalate : ∀ l : List String,
    joinTags l = String.intercalate "." l
  | [] => rfl
  | [t] => by
    rw [intercalate_eq_dotTail, dotTail, String.append_empty, joinTags]
  | t :: t₂ :: ts => by
    rw [joinTags, joinTags_eq_intercalate (t₂ :: ts), intercalate_eq_dotTail,
      intercalate_eq_dotTail, dotTail]
    simp [String.append_assoc]

/-- C9: `toString` yields `major.minor.patch`, then, only when the
prerelease sequence is non-empty, a `-` followed by the prerelease
tags joined with dots, then, only when the build sequence is
non-empty, a `+` followed by the build tags joined with dots, with no
trailing separators; in particular `(1,2,3,{"alpha","1"},{})` prints
as `"1.2.3-alpha.1"` and `(1,2,3,{},{})` as `"1.2.3"`. -/
theorem toString_format (v : Version) :
    Version.toString v =
      natToStr v.major ++ "." ++ natToStr v.minor ++ "." ++ natToStr v.patch
        ++ (if v.prerelease = [] then ""
            else "-" ++ String.intercalate "." v.prerelease)
        ++ (if v.build = [] then ""
            else "+" ++ String.intercalate "." v.build) ∧
    Version.toString (Version.mk 1 2 3 ["alpha", "1"] []) = "1.2.3-alpha.1" ∧
    Version.toString (Version.mk 1 2 3 [] []) = "1.2.3" := by
  refine ⟨?_, rfl, rfl⟩
  rw [Version.toString]
  simp only [joinTags_eq_intercalate, List.isEmpty_iff]

/-! ## Text-parse failure on missing separators (C8) -/

/-- C8: text parsing raises a `ParseError` when the character
following the major number, or the character following the minor
number, is not a dot; in particular `"1-2.3"` fails with a
`ParseError`. -/
theorem parse_missing_dot_errors :
    (∀ s : IStream,
      (getCh (extractUInt s).2).1 ≠ (46 : Int) →
        parseStream s =
          .error (.parseError "unexpected character in version string")) ∧
    (∀ s : IStream,
      (getCh (extractUInt s).2).1 = (46 : Int) →
      (getCh (extractUInt (getCh (extractUInt s).2).2).2).1 ≠ (46 : Int) →
        parseStream s =
          .error (.parseError "unexpected character in version string")) ∧
    parseText "1-2.3" =
      .error (.parseError "unexpected character in version string") := by
  refine ⟨?_, ?_, rfl⟩
  · intro s hne
    cases hE : extractUInt s with
    | mk major s1 =>
      rw [hE] at hne
      cases hG : getCh s1 with
      | mk c1 s2 =>
        rw [hG] at hne
        rw [parseStream]
        simp only [hE, hG]
        rw [if_pos hne]
  · intro s h1 h2
    cases hE : extractUInt s with
    | mk major s1 =>
      rw [hE] at h1 h2
      cases hG : getCh s1 with
      | mk c1 s2 =>
        rw [hG] at h1 h2
        cases hE2 : extractUInt s2 with
        | mk minor s3 =>
          rw [hE2] at h2
          cases hG2 : getCh s3 with
          | mk c2 s4 =>
            rw [hG2] at h2
            rw [parseStream]
            simp only [hE, hG, hE2, hG2]
            have hc1 : c1 = (46 : Int) := h1
            rw [if_neg (by rw [hc1]; exact fun hn => hn rfl)]
            rw [if_pos h2]

/-- Witness for C8, at the streams of `"1-2.3"` (dot missing after the
major number) and `"1.2x3"` (dot missing after the minor number). -/
theorem parse_missing_dot_errors_witness :
    parseStream ⟨("1-2.3").data, false⟩ =
      .error (.parseError "unexpected character in version string") ∧
    parseStream ⟨("1.2x3").data, false⟩ =
      .error (.parseError "unexpected character in version string") :=
  ⟨parse_missing_dot_errors.1 ⟨("1-2.3").data, false⟩ (by decide),
    parse_missing_dot_errors.2.1 ⟨("1.2x3").data, false⟩ rfl (by decide)⟩

/-! ## Silent acceptance of a missing or non-numeric patch (C10) -/

/-- The next character, when there is one, is not a digit (stated on
the characters after an accumulated sign). -/
def noDigitHead : List Char → Prop
  | [] => True
  | d :: _ => isDigitCh d = false

/-- A missing or non-numeric field for formatted integer extraction:
after the whitespace skip, the accumulated field — an optional sign
and the digits after it — contains no digit, so conversion fails.
(A sign followed by a digit is a numeric field: the program extracts
it, so such inputs are outside the claim.) -/
def noDigitsField : List Char → Prop
  | [] => True
  | c :: cs => if isSignCh c then noDigitHead cs else isDigitCh c = false

theorem peekCh_of_fail (u : IStream) (h : u.fail = true) : peekCh u = -1 := by
  rw [peekCh, if_pos h]

theorem extractUInt_nodigits (t : IStream) (hf : t.fail = false)
    (hnd : noDigitsField (t.rem.dropWhile isSpaceCh)) :
    ∃ u : IStream, extractUInt t = (0, u) ∧ u.fail = true := by
  rw [extractUInt]
  simp only [hf, Bool.false_eq_true, if_false]
  cases haw : t.rem.dropWhile isSpaceCh with
  | nil =>
    exact ⟨⟨[], true⟩, by simp, rfl⟩
  | cons c cs =>
    rw [haw, noDigitsField] at hnd
    by_cases hs : isSignCh c = true
    case pos =>
      rw [if_pos hs] at hnd
      have hds : cs.takeWhile isDigitCh = [] := by
        cases cs with
        | nil => rfl
        | cons d rest =>
          rw [noDigitHead] at hnd
          simp [List.takeWhile_cons, hnd]
      refine ⟨⟨cs, true⟩, ?_, rfl⟩
      simp [haw, hs, hds]
    case neg =>
      rw [if_neg hs] at hnd
      simp only [Bool.not_eq_true] at hs
      have hds : (c :: cs).takeWhile isDigitCh = [] := by
        simp [List.takeWhile_cons, hnd]
      refine ⟨⟨c :: cs, true⟩, ?_, rfl⟩
      simp [haw, hs, hds]

/-- C10: when the patch component of the text form is missing or
non-numeric — its extraction field holds no digit, as in `"1.2."` and
`"1.2.x"` — parsing raises no error: the failed conversion stores 0
with the fail state set, every later peek returns end-of-stream, and
the result is `(major, minor, 0)` with empty prerelease and build. -/
theorem parse_patch_failure_silent :
    (∀ t : IStream, t.fail = false →
      noDigitsField (t.rem.dropWhile isSpaceCh) →
        ∃ u : IStream, extractUInt t = (0, u) ∧ u.fail = true ∧
          peekCh u = -1) ∧
    (∀ (s s1 s2 s3 s4 : IStream) (major minor : Nat),
      extractUInt s = (major, s1) →
      getCh s1 = ((46 : Int), s2) →
      extractUInt s2 = (minor, s3) →
      getCh s3 = ((46 : Int), s4) →
      s4.fail = false →
      noDigitsField (s4.rem.dropWhile isSpaceCh) →
        parseStream s = .ok (Version.mk major minor 0 [] [])) ∧
    parseText "1.2." = .ok (Version.mk 1 2 0 [] []) ∧
    parseText "1.2.x" = .ok (Version.mk 1 2 0 [] []) := by
  refine ⟨?_, ?_, rfl, rfl⟩
  · intro t hf hnd
    obtain ⟨u, hu, huf⟩ := extractUInt_nodigits t hf hnd
    exact ⟨u, hu, huf, peekCh_of_fail u huf⟩
  · intro s s1 s2 s3 s4 major minor hE hG hE2 hG2 hf hnd
    obtain ⟨u, hu, huf⟩ := extractUInt_nodigits s4 hf hnd
    rw [parseStream]
    simp only [hE, hG, hE2, hG2]
    rw [if_neg (fun hn => hn rfl), if_neg (fun hn => hn rfl)]
    simp only [hu]
    rw [if_neg (by rw [peekCh_of_fail u huf]; decide)]

/-- Witness for C10: the general parts instantiated at the stream of
`"1.2.x"` and at the lone-`x` stream. -/
theorem parse_patch_failure_silent_witness :
    (∃ u : IStream, extractUInt ⟨['x'], false⟩ = (0, u) ∧ u.fail = true ∧
      peekCh u = -1) ∧
    parseStream ⟨("1.2.x").data, false⟩ = .ok (Version.mk 1 2 0 [] []) :=
  ⟨parse_patch_failure_silent.1 ⟨['x'], false⟩ rfl rfl,
    parse_patch_failure_silent.2.1 ⟨("1.2.x").data, false⟩
      ⟨['.', '2', '.', 'x'], false⟩ ⟨['2', '.', 'x'], false⟩
      ⟨['.', 'x'], false⟩ ⟨['x'], false⟩ 1 2 rfl rfl rfl rfl rfl rfl⟩

/-! ## Round trip through the text form (C3)

Support: the decimal digits printed for `n` parse back to `n`, stream
extraction consumes exactly a digit run, and the prerelease scanning
loop consumes exactly a dot-joined run of alphanumeric tags.
-/

theorem toNat_ofNat_digit (d : Nat) (hd : d < 10) :
    (Char.ofNat (48 + d)).toNat = 48 + d := by
  have hvalid : (48 + d).isValidChar := Or.inl (by omega)
  rw [Char.ofNat, dif_pos hvalid]
  rfl

theorem natDigitsAux_all_digit : ∀ fuel n, n < fuel →
    ∀ c ∈ natDigitsAux fuel n, isDigitCh c = true
  | 0, n, h => absurd h (by omega)
  | fuel + 1, n, h => by
    rw [natDigitsAux]
    by_cases h10 : n < 10
    · rw [if_pos h10]
      intro c hc
      rcases List.mem_singleton.mp hc with rfl
      simp only [isDigitCh, toNat_ofNat_digit n h10, Bool.and_eq_true,
        decide_eq_true_eq]
      omega
    · rw [if_neg h10]
      intro c hc
      rcases List.mem_append.mp hc with hc | hc
      · exact natDigitsAux_all_digit fuel (n / 10) (by omega) c hc
      · rcases List.mem_singleton.mp hc with rfl
        simp only [isDigitCh, toNat_ofNat_digit _ (Nat.mod_lt _ (by omega)),
          Bool.and_eq_true, decide_eq_true_eq]
        omega

theorem digitsToNat_append (l : List Char) (c : Char) :
    digitsToNat (l ++ [c]) = digitsToNat l * 10 + (c.toNat - 48) := by
  simp [digitsToNat, List.foldl_append]

theorem natDigitsAux_val : ∀ fuel n, n < fuel →
    digitsToNat (natDigitsAux fuel n) = n
  | 0, n, h => absurd h (by omega)
  | fuel + 1, n, h => by
    rw [natDigitsAux]
    by_cases h10 : n < 10
    · rw [if_pos h10]
      simp only [digitsToNat, List.foldl_cons, List.foldl_nil,
        toNat_ofNat_digit n h10]
      omega
    · rw [if_neg h10]
      rw [digitsToNat_append, natDigitsAux_val fuel (n / 10) (by omega),
        toNat_ofNat_digit _ (Nat.mod_lt _ (by omega))]
      omega

theorem natDigits_ne_nil (n : Nat) : natDigits n ≠ [] := by
  rw [natDigits, natDigitsAux]
  by_cases h10 : n < 10
  · rw [if_pos h10]; simp
  · rw [if_neg h10]; simp

theorem natDigits_all_digit (n : Nat) : ∀ c ∈ natDigits n, isDigitCh c = true :=
  natDigitsAux_all_digit (n + 1) n (by omega)

theorem digitsToNat_natDigits (n : Nat) : digitsToNat (natDigits n) = n :=
  natDigitsAux_val (n + 1) n (by omega)

theorem natToStr_data (n : Nat) : (natToStr n).data = natDigits n := rfl

theorem digit_not_space {c : Char} (h : isDigitCh c = true) :
    isSpaceCh c = false := by
  simp only [isDigitCh, Bool.and_eq_true, decide_eq_true_eq] at h
  simp only [isSpaceCh, Bool.or_eq_false_iff, Bool.and_eq_false_iff,
    beq_eq_false_iff_ne, ne_eq, decide_eq_false_iff_not, not_le]
  omega

/-- The next character, when there is one, is not a digit. -/
def headNotDigit : List Char → Prop
  | [] => True
  | c :: _ => isDigitCh c = false

theorem takeWhile_digits_append (l r : List Char)
    (hl : ∀ c ∈ l, isDigitCh c = true) (hr : headNotDigit r) :
    (l ++ r).takeWhile isDigitCh = l ∧ (l ++ r).dropWhile isDigitCh = r := by
  induction l with
  | nil =>
    cases r with
    | nil => simp
    | cons c cs =>
      rw [headNotDigit] at hr
      simp [List.takeWhile_cons, List.dropWhile_cons, hr]
  | cons c cs ih =>
    have hc := hl c (List.Mem.head _)
    obtain ⟨ht, hd⟩ := ih (fun x hx => hl x (List.Mem.tail _ hx))
    simp [List.takeWhile_cons, List.dropWhile_cons, hc, ht, hd]

theorem dropWhile_space_digits (l r : List Char) (hne : l ≠ [])
    (hl : ∀ c ∈ l, isDigitCh c = true) :
    (l ++ r).dropWhile isSpaceCh = l ++ r := by
  cases l with
  | nil => exact absurd rfl hne
  | cons c cs =>
    have hc := digit_not_space (hl c (List.Mem.head _))
    simp [List.dropWhile_cons, hc]

theorem extractUInt_digitrun (l : List Char) (hne : l ≠ [])
    (hl : ∀ x ∈ l, isDigitCh x = true) (hval : digitsToNat l < 2 ^ 32)
    (rest : List Char) (hr : headNotDigit rest) :
    extractUInt ⟨l ++ rest, false⟩ = (digitsToNat l, ⟨rest, false⟩) := by
  cases l with
  | nil => exact absurd rfl hne
  | cons c cs =>
    have hcd : isDigitCh c = true := hl c (List.Mem.head _)
    have hnotplus : c ≠ '+' := fun he => by
      rw [he] at hcd; exact absurd hcd (by decide)
    have hnotminus : c ≠ '-' := fun he => by
      rw [he] at hcd; exact absurd hcd (by decide)
    have hsign : isSignCh c = false := by simp [isSignCh, hnotplus, hnotminus]
    have hneg : (c == '-') = false := by simp [hnotminus]
    have hsp : isSpaceCh c = false := digit_not_space hcd
    have h64 : digitsToNat (c :: cs) < 2 ^ 64 :=
      Nat.lt_of_lt_of_le hval (by norm_num)
    obtain ⟨ht, hd⟩ := takeWhile_digits_append (c :: cs) rest hl hr
    rw [extractUInt]
    rw [List.cons_append] at ht hd ⊢
    simp only [Bool.false_eq_true, if_false, List.dropWhile_cons, hsp,
      hsign, hneg, ht, hd, List.isEmpty_cons]
    rw [if_neg (Nat.not_le.mpr h64), if_pos hval]

theorem extractUInt_digits (n : Nat) (hn : n < 2 ^ 32) (rest : List Char)
    (hr : headNotDigit rest) :
    extractUInt ⟨natDigits n ++ rest, false⟩ = (n, ⟨rest, false⟩) := by
  have h := extractUInt_digitrun (natDigits n) (natDigits_ne_nil n)
    (natDigits_all_digit n) (by rw [digitsToNat_natDigits]; exact hn) rest hr
  rw [digitsToNat_natDigits] at h
  exact h

theorem getCh_cons (c : Char) (cs : List Char) :
    getCh ⟨c :: cs, false⟩ = ((c.toNat : Int), ⟨cs, false⟩) := rfl

theorem peekCh_cons (c : Char) (cs : List Char) :
    peekCh ⟨c :: cs, false⟩ = (c.toNat : Int) := rfl

theorem peekCh_nil : peekCh ⟨[], false⟩ = -1 := rfl

theorem scanPrerelease_chunk : ∀ (tchars cur rest : List Char),
    (∀ c ∈ tchars, isAlnumCh c = true) →
    scanPrerelease cur (tchars ++ rest) = scanPrerelease (cur ++ tchars) rest
  | [], cur, rest, _ => by simp
  | c :: cs, cur, rest, h => by
    have hc := h c (List.Mem.head _)
    rw [List.cons_append, scanPrerelease, if_pos hc,
      scanPrerelease_chunk cs (cur ++ [c]) rest
        (fun x hx => h x (List.Mem.tail _ hx))]
    simp [List.append_assoc]

/-- The next character, when there is one, neither extends a tag nor
separates tags: the scanning loop stops there. -/
def headStopper : List Char → Prop
  | [] => True
  | c :: _ => isAlnumCh c = false ∧ c ≠ '.'

theorem scanPrerelease_stop (cur rest : List Char) (hr : headStopper rest) :
    scanPrerelease cur rest = ([cur], rest) := by
  cases rest with
  | nil => rfl
  | cons c cs =>
    obtain ⟨hr1, hr2⟩ := hr
    rw [scanPrerelease, if_neg (by rw [hr1]; exact Bool.false_ne_true),
      if_neg hr2]

theorem scanPrerelease_tags : ∀ (tags : List String) (rest : List Char),
    tags ≠ [] →
    (∀ t ∈ tags, ∀ c ∈ t.data, isAlnumCh c = true) →
    headStopper rest →
    scanPrerelease [] ((joinTags tags).data ++ rest) =
      (tags.map String.data, rest)
  | [], _, h, _, _ => absurd rfl h
  | [t], rest, _, halnum, hstop => by
    rw [joinTags, scanPrerelease_chunk t.data [] rest (halnum t (List.Mem.head _)),
      List.nil_append, scanPrerelease_stop t.data rest hstop]
    rfl
  | t :: t₂ :: ts, rest, _, halnum, hstop => by
    have hdata : (joinTags (t :: t₂ :: ts)).data =
        t.data ++ ('.' :: (joinTags (t₂ :: ts)).data) := by
      rw [joinTags]
      simp [List.append_assoc]
    rw [hdata, List.append_assoc, List.cons_append,
      scanPrerelease_chunk t.data [] _ (halnum t (List.Mem.head _)),
      List.nil_append, scanPrerelease,
      if_neg (by rw [show isAlnumCh ('.') = false from rfl]; exact Bool.false_ne_true),
      if_pos rfl,
      scanPrerelease_tags (t₂ :: ts) rest (by simp)
        (fun x hx => halnum x (List.Mem.tail _ hx)) hstop]
    rfl

theorem headNotDigit_nil : headNotDigit [] := trivial

theorem headNotDigit_dot (xs : List Char) : headNotDigit ('.' :: xs) := rfl

theorem headNotDigit_dash (xs : List Char) : headNotDigit ('-' :: xs) := rfl

theorem headNotDigit_plus (xs : List Char) : headNotDigit ('+' :: xs) := rfl

theorem data_dot : (".").data = ['.'] := rfl

theorem data_dash : ("-").data = ['-'] := rfl

theorem data_plus : ("+").data = ['+'] := rfl

theorem map_mk_data (tags : List String) :
    List.map (fun cs => (⟨cs⟩ : String)) (List.map String.data tags) = tags := by
  induction tags with
  | nil => rfl
  | cons t ts ih =>
    rw [List.map_cons, List.map_cons]
    exact congrArg₂ List.cons rfl ih

theorem parseStream_noPre (M m p : Nat) (hM : M < 2 ^ 32) (hm : m < 2 ^ 32)
    (hp : p < 2 ^ 32) (tail : List Char) (htail : headNotDigit tail)
    (hne45 : peekCh ⟨tail, false⟩ ≠ (45 : Int)) :
    parseStream
        ⟨natDigits M ++ '.' :: (natDigits m ++ '.' :: (natDigits p ++ tail)),
          false⟩ =
      .ok (Version.mk M m p [] []) := by
  rw [parseStream]
  simp only [extractUInt_digits M hM
    ('.' :: (natDigits m ++ '.' :: (natDigits p ++ tail))) (headNotDigit_dot _),
    getCh_cons]
  rw [if_neg (by decide)]
  simp only [extractUInt_digits m hm ('.' :: (natDigits p ++ tail))
    (headNotDigit_dot _), getCh_cons]
  rw [if_neg (by decide)]
  simp only [extractUInt_digits p hp tail htail]
  rw [if_neg hne45]

theorem parseStream_withPre (M m p : Nat) (hM : M < 2 ^ 32) (hm : m < 2 ^ 32)
    (hp : p < 2 ^ 32) (tags : List String) (rest : List Char)
    (htags : tags ≠ [])
    (halnum : ∀ t ∈ tags, ∀ c ∈ t.data, isAlnumCh c = true)
    (hstop : headStopper rest) :
    parseStream
        ⟨natDigits M ++ '.' :: (natDigits m ++ '.' ::
          (natDigits p ++ '-' :: ((joinTags tags).data ++ rest))), false⟩ =
      .ok (Version.mk M m p tags []) := by
  rw [parseStream]
  simp only [extractUInt_digits M hM
    ('.' :: (natDigits m ++ '.' ::
      (natDigits p ++ '-' :: ((joinTags tags).data ++ rest))))
    (headNotDigit_dot _), getCh_cons]
  rw [if_neg (by decide)]
  simp only [extractUInt_digits m hm
    ('.' :: (natDigits p ++ '-' :: ((joinTags tags).data ++ rest)))
    (headNotDigit_dot _), getCh_cons]
  rw [if_neg (by decide)]
  simp only [extractUInt_digits p hp
    ('-' :: ((joinTags tags).data ++ rest)) (headNotDigit_dash _)]
  simp only [peekCh_cons]
  rw [if_pos (by decide)]
  simp only [List.tail_cons,
    scanPrerelease_tags tags rest htags halnum hstop]
  rw [map_mk_data]

/-- C3: for every version whose fields are in `unsigned int` range and
whose prerelease tags are all non-empty and purely alphanumeric,
parsing `toString(v)` succeeds and yields the same `major`, `minor`,
`patch` and `prerelease`; the parsed `build` is empty regardless of
the build of `v` (text parsing never reads `+build`). -/
theorem text_roundtrip (v : Version)
    (h1 : v.major < 2 ^ 32) (h2 : v.minor < 2 ^ 32) (h3 : v.patch < 2 ^ 32)
    (hne : ∀ t ∈ v.prerelease, t ≠ "")
    (halnum : ∀ t ∈ v.prerelease, ∀ c ∈ t.data, isAlnumCh c = true) :
    parseText (Version.toString v) =
      .ok (Version.mk v.major v.minor v.patch v.prerelease []) := by
  rw [parseText]
  cases hpre : v.prerelease with
  | nil =>
    cases hbld : v.build with
    | nil =>
      rw [show (Version.toString v).data =
          natDigits v.major ++ '.' ::
            (natDigits v.minor ++ '.' ::
              (natDigits v.patch ++ ([] : List Char))) from by
        simp [Version.toString, hpre, hbld, natToStr_data, data_dot]]
      exact parseStream_noPre _ _ _ h1 h2 h3 [] headNotDigit_nil (by decide)
    | cons b bs =>
      rw [show (Version.toString v).data =
          natDigits v.major ++ '.' ::
            (natDigits v.minor ++ '.' ::
              (natDigits v.patch ++ ('+' :: (joinTags (b :: bs)).data))) from by
        simp [Version.toString, hpre, hbld, natToStr_data, data_dot, data_plus]]
      refine parseStream_noPre _ _ _ h1 h2 h3 _ (headNotDigit_plus _) ?_
      rw [peekCh_cons]
      decide
  | cons t ts =>
    rw [hpre] at halnum
    cases hbld : v.build with
    | nil =>
      rw [show (Version.toString v).data =
          natDigits v.major ++ '.' ::
            (natDigits v.minor ++ '.' ::
              (natDigits v.patch ++ '-' ::
                ((joinTags (t :: ts)).data ++ ([] : List Char)))) from by
        simp [Version.toString, hpre, hbld, natToStr_data, data_dot, data_dash]]
      exact parseStream_withPre _ _ _ h1 h2 h3 (t :: ts) [] (by simp)
        halnum trivial
    | cons b bs =>
      rw [show (Version.toString v).data =
          natDigits v.major ++ '.' ::
            (natDigits v.minor ++ '.' ::
              (natDigits v.patch ++ '-' ::
                ((joinTags (t :: ts)).data ++
                  ('+' :: (joinTags (b :: bs)).data)))) from by
        simp [Version.toString, hpre, hbld, natToStr_data, data_dot,
          data_dash, data_plus]]
      exact parseStream_withPre _ _ _ h1 h2 h3 (t :: ts) _ (by simp)
        halnum ⟨rfl, by decide⟩

/-- Witness for C3, at the version `(1,2,3,{"alpha","1"},{"b1"})`:
text parsing of its string form recovers everything but the build
tags. -/
theorem text_roundtrip_witness :
    parseText (Version.toString (Version.mk 1 2 3 ["alpha", "1"] ["b1"])) =
      .ok (Version.mk 1 2 3 ["alpha", "1"] []) :=
  text_roundtrip (Version.mk 1 2 3 ["alpha", "1"] ["b1"])
    (by decide) (by decide) (by decide) (by decide) (by decide)

end Semver
